/-
Verification of the document/retrieval pipeline of the Vyron System
(`app/brain_service.py` and the components it drives).

The Python module `BrainService` is shallowly embedded below:

* `generate_embeddings` models `BrainService.generate_embeddings`: the
  OpenAI client is external, so the provider's behaviour on one call is an
  explicit environment value (`EmbedResp`): no configured key, a raised
  error, or a list of `(index, embedding)` items echoed back.
* the chunker (`_splitter`, a `RecursiveCharacterTextSplitter` from the
  external `langchain_text_splitters` package, configured with
  `chunk_size=1000, chunk_overlap=150, separators=["\n\n","\n",". "," ",""]`)
  is modelled from the specification's description (§4.2), since its code
  is not part of this repository.
* `process_pdf`, `ingest_pdf` and `semantic_search` are translated
  statement by statement, with the external world (file system, PDF
  parser, database commit outcome, uuid supply) passed in explicitly.

Embedding vectors are modelled as lists of rationals; the cosine distance
computed by the external pgvector `<=>` operator is modelled exactly on
vectors whose Euclidean norms are rational (every concrete instance below
has integer coordinates and a perfect-square norm).
-/
import Mathlib

namespace VyronBrain

/-! ## Embedding client (`BrainService.generate_embeddings`) -/

/-- Outcome of one call to the external OpenAI embeddings endpoint:
`noKey` models `_openai is None` (no `OPENAI_API_KEY`), `apiError` models
the provider call raising any exception, and `ok items` models a
successful response whose `data` holds `(index, embedding)` items in an
arbitrary provider-chosen order. -/
inductive EmbedResp where
  | noKey : EmbedResp
  | apiError : EmbedResp
  | ok : List (Nat × List ℚ) → EmbedResp
deriving DecidableEq

/-- The provider environment: the response the external service produces
for a given batch of input texts. -/
def EmbedEnv := List String → EmbedResp

/-- Comparator used for `sorted(response.data, key=lambda d: d.index)`. -/
def leIdx (a b : Nat × List ℚ) : Prop := a.1 ≤ b.1

instance : DecidableRel leIdx := fun a b => Nat.decLe a.1 b.1

instance : IsTotal (Nat × List ℚ) leIdx := ⟨fun a b => Nat.le_total a.1 b.1⟩

instance : IsTrans (Nat × List ℚ) leIdx := ⟨fun _ _ _ => Nat.le_trans⟩

/-- `BrainService.generate_embeddings`: with no client or on any provider
error it returns one 1536-dimensional zero vector per input text
(lines 128-130 and 139-141); on success it sorts the response items by
the echoed index (Python's stable `sorted`) and returns the embeddings
(lines 132-138).  The Python function never raises; correspondingly the
model is a total function. -/
def generate_embeddings (env : EmbedEnv) (texts : List String) : List (List ℚ) :=
  match env texts with
  | .noKey => texts.map fun _ => List.replicate 1536 (0 : ℚ)
  | .apiError => texts.map fun _ => List.replicate 1536 (0 : ℚ)
  | .ok items => (List.insertionSort leIdx items).map Prod.snd

/-- The provider response in which item `i` carries the embedding `e i`
of the `i`-th input text, in input order. -/
def canonicalResp (e : Nat → List ℚ) (n : Nat) : List (Nat × List ℚ) :=
  (List.range n).map fun i => (i, e i)

/-- C2: `generate_embeddings` never raises (it is a total function of the
provider outcome); when no API credential is configured or the provider
call errors, it returns exactly one vector per input text, each equal to
1536 zeros; and every vector it returns has length 1536 — genuine vectors
under the provider's contract that response embeddings are
1536-dimensional, fallback vectors unconditionally. -/
theorem c2_generate_embeddings_fallback_and_dim (env : EmbedEnv) (texts : List String) :
    (env texts = .noKey ∨ env texts = .apiError →
      generate_embeddings env texts = texts.map fun _ => List.replicate 1536 (0 : ℚ)) ∧
    (env texts = .noKey ∨ env texts = .apiError →
      (generate_embeddings env texts).length = texts.length) ∧
    (∀ items, env texts = .ok items → (∀ p ∈ items, (p.2).length = 1536) →
      ∀ v ∈ generate_embeddings env texts, v.length = 1536) ∧
    (env texts = .noKey ∨ env texts = .apiError →
      ∀ v ∈ generate_embeddings env texts, v.length = 1536) := by
  refine ⟨?_, ?_, ?_, ?_⟩
  · rintro (h | h) <;> (unfold generate_embeddings; rw [h])
  · rintro (h | h) <;> (unfold generate_embeddings; rw [h]) <;>
      exact List.length_map texts _
  · intro items h hlen v hv
    unfold generate_embeddings at hv
    rw [h] at hv
    obtain ⟨p, hp, rfl⟩ := List.mem_map.mp hv
    exact hlen p ((List.mem_insertionSort leIdx).mp hp)
  · rintro (h | h) <;> intro v hv <;> (unfold generate_embeddings at hv; rw [h] at hv) <;>
      obtain ⟨_, _, rfl⟩ := List.mem_map.mp hv <;>
      exact List.length_replicate 1536 0

/-- Closed instance of C2 at a concrete input. -/
theorem c2_witness :
    generate_embeddings (fun _ => .noKey) ["a", "b"]
        = [List.replicate 1536 (0 : ℚ), List.replicate 1536 (0 : ℚ)] ∧
    (generate_embeddings (fun _ => .noKey) ["a", "b"]).length = 2 ∧
    ∀ v ∈ generate_embeddings (fun _ => .noKey) ["a", "b"], v.length = 1536 := by
  have h := c2_generate_embeddings_fallback_and_dim (fun _ => .noKey) ["a", "b"]
  exact ⟨h.1 (Or.inl rfl), h.2.1 (Or.inl rfl), h.2.2.2 (Or.inl rfl)⟩

/-- Strict version of the index order, used to pin down the sorted list. -/
def ltIdx (a b : Nat × List ℚ) : Prop := a.1 < b.1

instance : IsAntisymm (Nat × List ℚ) ltIdx :=
  ⟨fun a b h h' => absurd (Nat.lt_trans h h') (Nat.lt_irrefl a.1)⟩

/-- The canonical response is strictly sorted by index. -/
theorem canonicalResp_sorted (e : Nat → List ℚ) (n : Nat) :
    List.Sorted ltIdx (canonicalResp e n) := by
  unfold canonicalResp List.Sorted
  rw [List.pairwise_map]
  exact (List.pairwise_lt_range n).imp fun h => h

/-- Sorting any permutation of the canonical response by index recovers the
canonical response itself: the echoed indices are distinct, so the weakly
sorted result is strictly sorted and hence unique. -/
theorem insertionSort_perm_canonical (e : Nat → List ℚ) (n : Nat)
    (items : List (Nat × List ℚ)) (hperm : items.Perm (canonicalResp e n)) :
    List.insertionSort leIdx items = canonicalResp e n := by
  have hperm' : (List.insertionSort leIdx items).Perm (canonicalResp e n) :=
    (List.perm_insertionSort leIdx items).trans hperm
  have hsorted_le : List.Sorted leIdx (List.insertionSort leIdx items) :=
    List.sorted_insertionSort leIdx items
  have hnodup : ((List.insertionSort leIdx items).map Prod.fst).Nodup := by
    have hp : ((List.insertionSort leIdx items).map Prod.fst).Perm (List.range n) := by
      have h2 := hperm'.map Prod.fst
      rw [canonicalResp, List.map_map] at h2
      simpa [Function.comp_def] using h2
    exact hp.nodup_iff.mpr (List.nodup_range n)
  have hne : (List.insertionSort leIdx items).Pairwise fun a b => a.1 ≠ b.1 :=
    (List.pairwise_map).mp hnodup
  have hsorted_lt : List.Sorted ltIdx (List.insertionSort leIdx items) :=
    (hsorted_le.and hne).imp fun h => Nat.lt_of_le_of_ne h.1 h.2
  exact List.eq_of_perm_of_sorted hperm' hsorted_lt (canonicalResp_sorted e n)

/-- C6: for every non-empty input list and every permutation in which the
provider returns its `(index, embedding)` items, `generate_embeddings`
restores input order keyed by the echoed index: the returned list is
`[e 0, …, e (n-1)]` where `e i` is the embedding the provider attached to
input index `i`, so the `i`-th returned vector is the embedding of the
`i`-th input text. -/
theorem c6_order_restored (env : EmbedEnv) (texts : List String)
    (e : Nat → List ℚ) (items : List (Nat × List ℚ))
    (hne : texts ≠ []) (hok : env texts = .ok items)
    (hperm : items.Perm (canonicalResp e texts.length)) :
    generate_embeddings env texts = (List.range texts.length).map e ∧
    ∀ i, i < texts.length → (generate_embeddings env texts)[i]? = some (e i) := by
  have hmain : generate_embeddings env texts = (List.range texts.length).map e := by
    unfold generate_embeddings
    rw [hok]
    show (List.insertionSort leIdx items).map Prod.snd = _
    rw [insertionSort_perm_canonical e texts.length items hperm]
    rw [canonicalResp, List.map_map]
    simp [Function.comp_def]
  refine ⟨hmain, fun i hi => ?_⟩
  rw [hmain, List.getElem?_map, List.getElem?_range hi]
  rfl

/-- Closed instance of C6: three texts, provider returns the items out of
order, the client returns them in input order. -/
theorem c6_witness :
    generate_embeddings (fun _ => .ok [(2, [2]), (0, [0]), (1, [1])]) ["a", "b", "c"]
      = [[(0 : ℚ)], [1], [2]] := by
  have h := c6_order_restored (fun _ => .ok [(2, [2]), (0, [0]), (1, [1])])
    ["a", "b", "c"] (fun i => [(i : ℚ)]) [(2, [2]), (0, [0]), (1, [1])]
    (by decide) rfl (by decide)
  rw [h.1]
  decide

/-! ## Chunker (`_splitter.split_text`)

Modelled from the spec: the splitter object `_splitter` is a
`RecursiveCharacterTextSplitter` from the external package
`langchain_text_splitters`, whose code is not part of this repository;
only its configuration (`chunk_size=1000`, `chunk_overlap=150`,
`length_function=len`, `separators=["\n\n", "\n", ". ", " ", ""]`) is.
The functions below follow §4.2 of the specification: try each separator
in order and keep the first whose pieces all fit the character budget
(separator text stays attached to the preceding piece, so no characters
are lost), fall back to raw fixed-size splitting, merge adjacent small
pieces back up to the budget, then prepend `overlap` characters of the
previous chunk's trailing context to every chunk after the first.
Texts are modelled as `List Char`. -/

/-- `matchesAt sep t` holds when `sep` is an initial segment of `t`. -/
def matchesAt : List Char → List Char → Bool
  | [], _ => true
  | _ :: _, [] => false
  | a :: as, b :: bs => a == b && matchesAt as bs

/-- Find the first occurrence of `sep` in `t`: returns the piece up to and
including that occurrence, and the remainder after it. -/
def findSplit (sep : List Char) : List Char → Option (List Char × List Char)
  | [] => none
  | c :: cs =>
    if matchesAt sep (c :: cs) then some (sep, (c :: cs).drop sep.length)
    else
      match findSplit sep cs with
      | none => none
      | some (pre, post) => some (c :: pre, post)

theorem matchesAt_eq (sep : List Char) : ∀ t, matchesAt sep t = true →
    sep ++ t.drop sep.length = t := by
  induction sep with
  | nil => intro t _; rfl
  | cons a as ih =>
    intro t h
    cases t with
    | nil => simp [matchesAt] at h
    | cons b bs =>
      simp only [matchesAt, Bool.and_eq_true, beq_iff_eq] at h
      obtain ⟨rfl, h2⟩ := h
      simpa using ih bs h2

theorem findSplit_eq (sep : List Char) : ∀ t pre post,
    findSplit sep t = some (pre, post) → pre ++ post = t ∧ sep.length ≤ pre.length := by
  intro t
  induction t with
  | nil => intro pre post h; simp [findSplit] at h
  | cons c cs ih =>
    intro pre post h
    by_cases hm : matchesAt sep (c :: cs) = true
    · rw [findSplit, if_pos hm] at h
      obtain ⟨rfl, rfl⟩ := Prod.mk.injEq .. ▸ Option.some.injEq .. ▸ h
      refine ⟨matchesAt_eq sep (c :: cs) hm, le_refl _⟩
    · rw [findSplit, if_neg hm] at h
      cases hf : findSplit sep cs with
      | none => rw [hf] at h; exact absurd h (by simp)
      | some pq =>
        obtain ⟨p, q⟩ := pq
        rw [hf] at h
        obtain ⟨rfl, rfl⟩ := Prod.mk.injEq .. ▸ Option.some.injEq .. ▸ h
        obtain ⟨hpq, hlen⟩ := ih p q hf
        constructor
        · rw [List.cons_append, hpq]
        · exact Nat.le_trans hlen (by simp)

theorem findSplit_post_lt (sep : List Char) (t pre post : List Char)
    (hsep : sep ≠ []) (h : findSplit sep t = some (pre, post)) :
    post.length < t.length := by
  obtain ⟨hpq, hlen⟩ := findSplit_eq sep t pre post h
  have hpre : 0 < pre.length :=
    Nat.lt_of_lt_of_le (List.length_pos.mpr hsep) hlen
  have := congrArg List.length hpq
  rw [List.length_append] at this
  omega

/-- Split `t` at every occurrence of `sep`, keeping each separator attached
to the end of the piece it terminates.  Recursion is bounded by a fuel
argument; every occurrence consumes at least one character, so fuel equal
to the text length (as supplied by `splitKeepSep`) is always sufficient. -/
def splitKeepSepFuel (sep : List Char) : Nat → List Char → List (List Char)
  | 0, t => [t]
  | fuel + 1, t =>
    match findSplit sep t with
    | none => [t]
    | some (pre, post) => pre :: splitKeepSepFuel sep fuel post

/-- An empty separator splits nothing. -/
def splitKeepSep (sep : List Char) (t : List Char) : List (List Char) :=
  if sep = [] then [t] else splitKeepSepFuel sep t.length t

theorem flatten_splitKeepSepFuel (sep : List Char) :
    ∀ (fuel : Nat) (t : List Char), (splitKeepSepFuel sep fuel t).flatten = t := by
  intro fuel
  induction fuel with
  | zero => intro t; simp [splitKeepSepFuel]
  | succ fuel ih =>
    intro t
    rw [splitKeepSepFuel]
    cases hf : findSplit sep t with
    | none => simp
    | some pq =>
      obtain ⟨pre, post⟩ := pq
      rw [List.flatten_cons, ih post]
      exact (findSplit_eq sep t pre post hf).1

theorem flatten_splitKeepSep (sep : List Char) (t : List Char) :
    (splitKeepSep sep t).flatten = t := by
  rw [splitKeepSep]
  by_cases h : sep = []
  · simp [h]
  · rw [if_neg h]
    exact flatten_splitKeepSepFuel sep t.length t

/-- Fall-back raw split into pieces of exactly `b` characters (last piece
shorter), used when no separator yields pieces within the budget.  Fuel
equal to the text length is always sufficient since each step consumes at
least one character. -/
def chunkEveryFuel (b : Nat) : Nat → List Char → List (List Char)
  | 0, t => if t = [] then [] else [t]
  | fuel + 1, t =>
    if t = [] then []
    else if b = 0 then [t]
    else t.take b :: chunkEveryFuel b fuel (t.drop b)

def chunkEvery (b : Nat) (t : List Char) : List (List Char) :=
  chunkEveryFuel b t.length t

theorem flatten_chunkEveryFuel (b : Nat) :
    ∀ (fuel : Nat) (t : List Char), (chunkEveryFuel b fuel t).flatten = t := by
  intro fuel
  induction fuel with
  | zero =>
    intro t
    rw [chunkEveryFuel]
    by_cases h : t = [] <;> simp [h]
  | succ fuel ih =>
    intro t
    rw [chunkEveryFuel]
    by_cases h : t = []
    · simp [h]
    · rw [if_neg h]
      by_cases hb : b = 0
      · simp [hb]
      · rw [if_neg hb, List.flatten_cons, ih (t.drop b), List.take_append_drop]

theorem flatten_chunkEvery (b : Nat) (t : List Char) : (chunkEvery b t).flatten = t :=
  flatten_chunkEveryFuel b t.length t

/-- Try each separator in preference order; keep the first whose pieces all
fit within the budget, otherwise fall back to raw fixed-size splitting. -/
def trySeps (budget : Nat) : List (List Char) → List Char → List (List Char)
  | [], t => chunkEvery budget t
  | sep :: rest, t =>
    let ps := splitKeepSep sep t
    if ps.all fun p => p.length ≤ budget then ps else trySeps budget rest t

theorem flatten_trySeps (budget : Nat) (seps : List (List Char)) (t : List Char) :
    (trySeps budget seps t).flatten = t := by
  induction seps with
  | nil => exact flatten_chunkEvery budget t
  | cons sep rest ih =>
    rw [trySeps]
    by_cases h : (splitKeepSep sep t).all (fun p => p.length ≤ budget) = true
    · simp only [h, if_true]
      exact flatten_splitKeepSep sep t
    · simp only [h, if_false]
      exact ih

/-- Merge adjacent small pieces back together, greedily, as long as the
merged piece stays within the budget. -/
def mergeSplits (b : Nat) : List (List Char) → List (List Char)
  | [] => []
  | [p] => [p]
  | p :: q :: rest =>
    if (p ++ q).length ≤ b then mergeSplits b ((p ++ q) :: rest)
    else p :: mergeSplits b (q :: rest)
termination_by l => l.length

theorem flatten_mergeSplits (b : Nat) (l : List (List Char)) :
    (mergeSplits b l).flatten = l.flatten := by
  induction l using mergeSplits.induct b with
  | case1 => rw [mergeSplits]
  | case2 p => rw [mergeSplits]
  | case3 p q rest h ih =>
    rw [mergeSplits]
    simp only [h, if_true]
    rw [ih]
    simp
  | case4 p q rest h ih =>
    rw [mergeSplits]
    simp only [h, if_false]
    rw [List.flatten_cons, ih]
    simp

/-- The trailing `n` characters of `l` (all of `l` when it is shorter). -/
def lastChars (n : Nat) (l : List Char) : List Char := l.drop (l.length - n)

/-- Prepend the previous chunk's trailing overlap to every chunk after the
first. -/
def addOverlapGo (ov : Nat) (prev : List Char) : List (List Char) → List (List Char)
  | [] => []
  | c :: cs => (lastChars ov prev ++ c) :: addOverlapGo ov c cs

def addOverlap (ov : Nat) : List (List Char) → List (List Char)
  | [] => []
  | c :: cs => c :: addOverlapGo ov c cs

/-- Remove the leading overlap region from every chunk after the first;
each removed length is the overlap contributed by the previously
reconstructed chunk. -/
def stripOverlapsGo (ov : Nat) (prev : List Char) : List (List Char) → List (List Char)
  | [] => []
  | d :: ds =>
    d.drop (min ov prev.length) :: stripOverlapsGo ov (d.drop (min ov prev.length)) ds

def stripOverlaps (ov : Nat) : List (List Char) → List (List Char)
  | [] => []
  | d :: ds => d :: stripOverlapsGo ov d ds

theorem lastChars_length (n : Nat) (l : List Char) :
    (lastChars n l).length = min n l.length := by
  rw [lastChars, List.length_drop]
  omega

theorem stripOverlapsGo_addOverlapGo (ov : Nat) :
    ∀ (cs : List (List Char)) (prev : List Char),
      stripOverlapsGo ov prev (addOverlapGo ov prev cs) = cs := by
  intro cs
  induction cs with
  | nil => intro prev; rfl
  | cons c rest ih =>
    intro prev
    rw [addOverlapGo, stripOverlapsGo]
    have hdrop : (lastChars ov prev ++ c).drop (min ov prev.length) = c := by
      have hl : (lastChars ov prev).length = min ov prev.length := lastChars_length ov prev
      rw [← hl, List.drop_left]
    rw [hdrop]
    rw [ih c]

/-- Stripping the overlaps added by `addOverlap` recovers the original
chunk list exactly. -/
theorem stripOverlaps_addOverlap (ov : Nat) (l : List (List Char)) :
    stripOverlaps ov (addOverlap ov l) = l := by
  cases l with
  | nil => rfl
  | cons c cs =>
    rw [addOverlap, stripOverlaps]
    rw [stripOverlapsGo_addOverlapGo ov cs c]

/-- The separator configuration of `_splitter` (module line 40). -/
def splitterSeparators : List (List Char) :=
  ["\n\n".toList, "\n".toList, ". ".toList, " ".toList, "".toList]

/-- Modelled from the spec: `_splitter.split_text` with `chunk_size=1000`
and `chunk_overlap=150` (§4.2): split at the most-preferred separator that
fits the budget, merge small pieces back up to the budget, then add 150
characters of overlap to every chunk after the first. -/
def split_text (s : List Char) : List (List Char) :=
  addOverlap 150 (mergeSplits 1000 (trySeps 1000 splitterSeparators s))

/-- C4: chunking coverage — for any input text, concatenating the chunks
with each chunk's leading overlap region removed reconstructs the input
exactly; no characters are dropped or duplicated beyond the overlap
regions. -/
theorem c4_chunking_coverage (s : List Char) :
    (stripOverlaps 150 (split_text s)).flatten = s := by
  rw [split_text, stripOverlaps_addOverlap]
  rw [flatten_mergeSplits, flatten_trySeps]

/-! ## Text extraction (`BrainService.process_pdf`)

The PDF parser (`pypdf.PdfReader`) and the file system are external, so a
source document is modelled by what they report: whether a path exists,
and — when the bytes parse as a PDF — the list of per-page texts produced
by `page.extract_text()` (with `""` standing for an empty or absent text
layer).  `parsed = none` models bytes that do not parse as a PDF, in
which case `PdfReader` raises; under the spec's taxonomy (§7) that
failure and the blank-document `ValueError` are both `ExtractionFailed`. -/

/-- A document source: a file path (which may not exist) or an in-memory
byte stream, as accepted by `process_pdf`. -/
inductive PdfSource where
  | filePath : String → Bool → Option (List String) → PdfSource
  | byteStream : Option (List String) → PdfSource
deriving DecidableEq

inductive PdfError where
  | notFound : PdfError
  | extractionFailed : PdfError
deriving DecidableEq

/-- The dict returned by `process_pdf` (filename, full_text, chunks,
total_pages). -/
structure ProcessResult where
  filename : String
  full_text : String
  chunks : List String
  total_pages : Nat
deriving DecidableEq

/-- Python's `filename or default`: an absent or empty override falls back
to the default (lines 79 and 83-84). -/
def resolveFilename (arg : Option String) (dflt : String) : String :=
  match arg with
  | none => dflt
  | some f => if f = "" then dflt else f

/-- `not full_text.strip()`: true iff every character is whitespace
(vacuously for the empty string). -/
def isBlank (s : String) : Bool := s.toList.all fun c => c.isWhitespace

/-- Lines 86-108 of `process_pdf`: keep the truthy page texts, join them
with a paragraph break, fail if the result strips to nothing, otherwise
chunk and return. -/
def processCore (splitter : String → List String) (fname : String)
    (pages : List String) : Except PdfError ProcessResult :=
  let pagesText := pages.filter fun p => p != ""
  let fullText := String.intercalate "\n\n" pagesText
  if isBlank fullText then .error .extractionFailed
  else .ok ⟨fname, fullText, splitter fullText, pages.length⟩

/-- `BrainService.process_pdf` (lines 51-108), parametrised by the chunker
`splitter` standing for the external `_splitter.split_text`. -/
def process_pdf (splitter : String → List String) (src : PdfSource)
    (filenameArg : Option String) : Except PdfError ProcessResult :=
  match src with
  | .filePath name ex parsed =>
    if ex = false then .error .notFound
    else
      match parsed with
      | none => .error .extractionFailed
      | some pages => processCore splitter (resolveFilename filenameArg name) pages
  | .byteStream parsed =>
    match parsed with
    | none => .error .extractionFailed
    | some pages => processCore splitter (resolveFilename filenameArg "upload.pdf") pages

/-- A path source that does not exist (`not path.exists()`). -/
def sourceMissing : PdfSource → Bool
  | .filePath _ ex _ => !ex
  | .byteStream _ => false

/-- What the external PDF parser reports for the source. -/
def sourceParsed : PdfSource → Option (List String)
  | .filePath _ _ p => p
  | .byteStream p => p

/-- The display name used when no override is given. -/
def sourceDefaultName : PdfSource → String
  | .filePath name _ _ => name
  | .byteStream _ => "upload.pdf"

/-- The page texts that survive the truthiness filter, joined by a
paragraph break (`full_text`). -/
def keptText (pages : List String) : String :=
  String.intercalate "\n\n" (pages.filter fun p => p != "")

/-- C9 counterexample: a parseable document with a single page whose
extracted text is a lone space — no page text is empty, yet `process_pdf`
raises the extraction error, because the code tests
`not full_text.strip()` (whitespace-only), not emptiness.  The claim as
stated predicts a successful return here. -/
theorem c9_counterexample :
    process_pdf (fun _ => []) (.byteStream (some [" "])) none
        = .error .extractionFailed ∧
    sourceParsed (.byteStream (some [" "])) = some [" "] ∧
    ¬ (∀ p ∈ ([" "] : List String), p = "") := by
  refine ⟨rfl, rfl, ?_⟩
  intro h
  exact absurd (h " " (by decide)) (by decide)

/-- C9 (amended): `process_pdf` fails with `NotFound` exactly when the
given file reference does not exist; fails with `ExtractionFailed`
exactly when the source cannot be parsed as a PDF or the kept page texts
strip to nothing (every page's text empty **or whitespace-only**); and
otherwise returns the page-ordered concatenation of the non-empty page
texts joined by a paragraph break — itself non-empty — together with the
total page count.  The model is a pure function: no side effects. -/
theorem c9_process_pdf_characterization (splitter : String → List String)
    (src : PdfSource) (arg : Option String) :
    (process_pdf splitter src arg = .error .notFound ↔ sourceMissing src = true) ∧
    (process_pdf splitter src arg = .error .extractionFailed ↔
      (sourceMissing src = false ∧
        (sourceParsed src = none ∨
          ∃ pages, sourceParsed src = some pages ∧ isBlank (keptText pages) = true))) ∧
    (∀ pages, sourceMissing src = false → sourceParsed src = some pages →
      isBlank (keptText pages) = false →
      process_pdf splitter src arg =
        .ok ⟨resolveFilename arg (sourceDefaultName src), keptText pages,
             splitter (keptText pages), pages.length⟩ ∧
      keptText pages ≠ "") := by
  have hblank : ∀ pages : List String, isBlank (keptText pages) = false →
      keptText pages ≠ "" := by
    intro pages h hcon
    rw [hcon] at h
    exact absurd h (by decide)
  cases src with
  | filePath name ex parsed =>
    cases ex with
    | false =>
      refine ⟨by simp [process_pdf, sourceMissing], ?_, ?_⟩
      · simp [process_pdf, sourceMissing]
      · intro pages hmiss
        simp [sourceMissing] at hmiss
    | true =>
      cases parsed with
      | none =>
        refine ⟨by simp [process_pdf, sourceMissing], ?_, ?_⟩
        · simp [process_pdf, sourceMissing, sourceParsed]
        · intro pages _ hp
          simp [sourceParsed] at hp
      | some pages =>
        refine ⟨?_, ?_, ?_⟩
        · simp only [process_pdf, sourceMissing, processCore]
          by_cases hb : isBlank (keptText pages) = true <;>
            simp [keptText, hb] at * <;> simp [hb]
        · simp only [process_pdf, sourceMissing, sourceParsed, processCore]
          by_cases hb : isBlank (keptText pages) = true <;>
            simp [keptText] at hb <;> simp [hb, keptText]
        · intro pages' _ hp hb
          obtain rfl : pages = pages' := by
            simpa [sourceParsed] using hp
          refine ⟨?_, hblank pages hb⟩
          simp only [process_pdf, processCore, sourceDefaultName]
          rw [if_neg]
          · simp [keptText] at hb
            simp [hb, keptText]
          · simp
  | byteStream parsed =>
    cases parsed with
    | none =>
      refine ⟨by simp [process_pdf, sourceMissing], ?_, ?_⟩
      · simp [process_pdf, sourceMissing, sourceParsed]
      · intro pages _ hp
        simp [sourceParsed] at hp
    | some pages =>
      refine ⟨?_, ?_, ?_⟩
      · simp only [process_pdf, sourceMissing, processCore]
        by_cases hb : isBlank (keptText pages) = true <;>
          simp [keptText, hb] at * <;> simp [hb]
      · simp only [process_pdf, sourceMissing, sourceParsed, processCore]
        by_cases hb : isBlank (keptText pages) = true <;>
          simp [keptText] at hb <;> simp [hb, keptText]
      · intro pages' _ hp hb
        obtain rfl : pages = pages' := by
          simpa [sourceParsed] using hp
        refine ⟨?_, hblank pages hb⟩
        simp only [process_pdf, processCore, sourceDefaultName]
        simp [keptText] at hb
        simp [hb, keptText]

/-- Closed instance of C9's amended success case. -/
theorem c9_witness :
    process_pdf (fun t => [t]) (.byteStream (some ["hello", ""])) none
      = .ok ⟨"upload.pdf", "hello", ["hello"], 2⟩ := by
  have h := (c9_process_pdf_characterization (fun t => [t])
      (.byteStream (some ["hello", ""])) none).2.2 ["hello", ""] rfl rfl (by decide)
  rw [h.1]
  rfl

/-! ## Chunk Store and ingestion pipeline (`BrainService.ingest_pdf`)

Modelled from the spec: the `DocumentChunk` ORM model (table
`document_chunks`) is imported from `app.models`, but its class definition
and the `004_add_document_chunks.sql` migration are not among the shipped
sources; its fields follow §3/§6 of the specification and the constructor
call at lines 209-220 (`id` from `uuid4()` is modelled as a caller-supplied
fresh natural number, `created_at` is omitted as no claim concerns it; the
spec declares no database-level uniqueness constraint beyond the primary
key).  The database session is modelled by the list of committed rows plus
an explicit commit outcome: `db.add_all(records); db.commit()` appends all
records atomically on success, and on failure `db.rollback()` restores the
pre-call state — the all-or-nothing behaviour of the single transaction is
the storage layer's contract (§4.4). -/

/-- The `metadata_json` dict attached at ingestion (lines 215-219). -/
structure ChunkMetadata where
  total_pages : Nat
  total_chunks : Nat
  chunk_size : Nat
deriving DecidableEq

structure DocumentChunk where
  id : Nat
  filename : String
  chunk_index : Nat
  content : String
  embedding : Option (List ℚ)
  metadata_json : ChunkMetadata
deriving DecidableEq

/-- The committed contents of the `document_chunks` table. -/
structure ChunkStore where
  rows : List DocumentChunk
deriving DecidableEq

/-- Outcome of the final `db.commit()` — success, or any transaction
failure (constraint violation, connection loss). -/
inductive CommitOutcome where
  | ok : CommitOutcome
  | fail : CommitOutcome
deriving DecidableEq

/-- Errors `ingest_pdf` can raise: a propagated `FileNotFoundError`
(line 175-176), the `RuntimeError` wrapping a read/processing failure
(lines 177-181), and the `RuntimeError` wrapping a commit failure
(lines 226-228). -/
inductive IngestError where
  | fileNotFound : IngestError
  | processingFailed : IngestError
  | persistenceFailed : IngestError
deriving DecidableEq

/-- The success summary returned at lines 230-235. -/
structure IngestSummary where
  filename : String
  total_pages : Nat
  total_chunks : Nat
  status : String
deriving DecidableEq

/-- The batching loop `for i in range(0, len(chunks), batch_size)`
(lines 191-197): successive slices `chunks[i : i + batch_size]`.  Fuel
equal to the list length is always sufficient since each step consumes at
least one element. -/
def batchesFuel (bs : Nat) : Nat → List String → List (List String)
  | 0, l => if l = [] then [] else [l]
  | fuel + 1, l =>
    if l = [] then []
    else if bs = 0 then [l]
    else l.take bs :: batchesFuel bs fuel (l.drop bs)

def batches (bs : Nat) (l : List String) : List (List String) :=
  batchesFuel bs l.length l

theorem flatten_batchesFuel (bs : Nat) :
    ∀ (fuel : Nat) (l : List String), (batchesFuel bs fuel l).flatten = l := by
  intro fuel
  induction fuel with
  | zero =>
    intro l
    rw [batchesFuel]
    by_cases h : l = [] <;> simp [h]
  | succ fuel ih =>
    intro l
    rw [batchesFuel]
    by_cases h : l = []
    · simp [h]
    · rw [if_neg h]
      by_cases hb : bs = 0
      · simp [hb]
      · rw [if_neg hb, List.flatten_cons, ih (l.drop bs), List.take_append_drop]

theorem flatten_batches (bs : Nat) (l : List String) : (batches bs l).flatten = l :=
  flatten_batchesFuel bs l.length l

/-- `all_embeddings`: the concatenation of the per-batch results of
`generate_embeddings` (lines 189-197). -/
def embedAllBatches (env : EmbedEnv) (bs : Nat) (chunks : List String) : List (List ℚ) :=
  ((batches bs chunks).map (generate_embeddings env)).flatten

/-- When the provider returns one vector per input text (its documented
contract, and unconditionally true of both fallback paths), the batched
embedding pass yields exactly one vector per chunk. -/
theorem embedAllBatches_length (env : EmbedEnv) (bs : Nat) (chunks : List String)
    (hlen : ∀ ts, (generate_embeddings env ts).length = ts.length) :
    (embedAllBatches env bs chunks).length = chunks.length := by
  rw [embedAllBatches, List.length_flatten, List.map_map]
  have h1 : (batches bs chunks).map (List.length ∘ generate_embeddings env)
      = (batches bs chunks).map List.length :=
    List.map_congr_left fun ts _ => hlen ts
  rw [h1, ← List.length_flatten, flatten_batches]

/-- The record-construction loop
`for idx, (chunk_text, embedding) in enumerate(zip(chunks, all_embeddings))`
(lines 206-221), carrying the running index explicitly. -/
def mkRecordsGo (idBase : Nat) (fname : String) (tp tc : Nat) :
    Nat → List String → List (List ℚ) → List DocumentChunk
  | _, [], _ => []
  | _, _ :: _, [] => []
  | i, t :: ts, e :: es =>
    ⟨idBase + i, fname, i, t, some e, ⟨tp, tc, t.length⟩⟩ ::
      mkRecordsGo idBase fname tp tc (i + 1) ts es

def mkRecords (idBase : Nat) (fname : String) (tp : Nat)
    (chunks : List String) (embs : List (List ℚ)) : List DocumentChunk :=
  mkRecordsGo idBase fname tp chunks.length 0 chunks embs

theorem mkRecordsGo_length (idBase : Nat) (fname : String) (tp tc : Nat) :
    ∀ (ts : List String) (es : List (List ℚ)) (i : Nat),
      (mkRecordsGo idBase fname tp tc i ts es).length = min ts.length es.length := by
  intro ts
  induction ts with
  | nil => intro es i; cases es <;> simp [mkRecordsGo]
  | cons t ts ih =>
    intro es i
    cases es with
    | nil => simp [mkRecordsGo]
    | cons e es =>
      rw [mkRecordsGo]
      simp only [List.length_cons, ih es (i + 1)]
      omega

theorem mkRecordsGo_getElem? (idBase : Nat) (fname : String) (tp tc : Nat) :
    ∀ (ts : List String) (es : List (List ℚ)) (i j : Nat),
      j < ts.length → j < es.length →
      (mkRecordsGo idBase fname tp tc i ts es)[j]? =
        some ⟨idBase + (i + j), fname, i + j, ts.getD j "", some (es.getD j []),
              ⟨tp, tc, (ts.getD j "").length⟩⟩ := by
  intro ts
  induction ts with
  | nil => intro es i j hj _; simp at hj
  | cons t ts ih =>
    intro es i j hj hje
    cases es with
    | nil => simp at hje
    | cons e es =>
      cases j with
      | zero => simp [mkRecordsGo]
      | succ j =>
        rw [mkRecordsGo]
        have hj' : j < ts.length := by simpa using hj
        have hje' : j < es.length := by simpa using hje
        have h := ih es (i + 1) j hj' hje'
        have harith : i + 1 + j = i + (j + 1) := by omega
        rw [List.getElem?_cons_succ, h, harith]
        rfl

/-- Convenience restatement of `mkRecordsGo_getElem?` at the outer call. -/
theorem mkRecords_getElem? (idBase : Nat) (fname : String) (tp : Nat)
    (chunks : List String) (embs : List (List ℚ)) (j : Nat)
    (hj : j < chunks.length) (hje : j < embs.length) :
    (mkRecords idBase fname tp chunks embs)[j]? =
      some ⟨idBase + j, fname, j, chunks.getD j "", some (embs.getD j []),
            ⟨tp, chunks.length, (chunks.getD j "").length⟩⟩ := by
  have h := mkRecordsGo_getElem? idBase fname tp chunks.length chunks embs 0 j hj hje
  simpa using h

/-- `BrainService.ingest_pdf` (lines 147-237): process, embed in batches,
build one record per `(text, vector)` pair, then persist all records in a
single transaction; on commit failure roll back and surface the wrapped
error.  The commit outcome, the uuid supply and the chunker are
environment parameters. -/
def ingest_pdf (env : EmbedEnv) (commit : CommitOutcome) (idBase : Nat)
    (splitter : String → List String) (src : PdfSource) (filenameArg : Option String)
    (db : ChunkStore) (batch_size : Nat) :
    Except IngestError (ChunkStore × IngestSummary) :=
  match process_pdf splitter src filenameArg with
  | .error .notFound => .error .fileNotFound
  | .error .extractionFailed => .error .processingFailed
  | .ok processed =>
    let chunks := processed.chunks
    let all_embeddings := embedAllBatches env batch_size chunks
    let records := mkRecords idBase processed.filename processed.total_pages
      chunks all_embeddings
    match commit with
    | .fail => .error .persistenceFailed
    | .ok => .ok (⟨db.rows ++ records⟩,
        ⟨processed.filename, processed.total_pages, chunks.length, "success"⟩)

/-- The table contents a subsequent reader observes: the new store on
success, the rolled-back original on any error. -/
def storeAfter (db : ChunkStore)
    (result : Except IngestError (ChunkStore × IngestSummary)) : ChunkStore :=
  match result with
  | .ok (s, _) => s
  | .error _ => db

/-- The chunk records one ingestion call attempts to persist. -/
def ingestRecords (env : EmbedEnv) (idBase : Nat) (splitter : String → List String)
    (src : PdfSource) (filenameArg : Option String) (bs : Nat) : List DocumentChunk :=
  match process_pdf splitter src filenameArg with
  | .error _ => []
  | .ok processed =>
    mkRecords idBase processed.filename processed.total_pages processed.chunks
      (embedAllBatches env bs processed.chunks)

/-- C1: if the final bulk persist fails, the whole transaction is rolled
back — the ingest call errors with the wrapped persistence failure and the
Chunk Store a subsequent reader sees is exactly the pre-call store; and
for every commit outcome the visible store is either the pre-call rows or
the pre-call rows extended by all of this call's records, so no reader
can observe a proper non-empty subset of one call's chunks. -/
theorem c1_persist_failure_rolls_back (env : EmbedEnv) (commit : CommitOutcome)
    (idBase : Nat) (splitter : String → List String) (src : PdfSource)
    (arg : Option String) (db : ChunkStore) (bs : Nat) (processed : ProcessResult)
    (hok : process_pdf splitter src arg = .ok processed) :
    (commit = .fail →
      ingest_pdf env commit idBase splitter src arg db bs = .error .persistenceFailed ∧
      storeAfter db (ingest_pdf env commit idBase splitter src arg db bs) = db) ∧
    ((storeAfter db (ingest_pdf env commit idBase splitter src arg db bs)).rows = db.rows ∨
      (storeAfter db (ingest_pdf env commit idBase splitter src arg db bs)).rows
        = db.rows ++ ingestRecords env idBase splitter src arg bs) := by
  unfold ingest_pdf storeAfter ingestRecords
  rw [hok]
  cases commit with
  | fail => exact ⟨fun _ => ⟨rfl, rfl⟩, Or.inl rfl⟩
  | ok => exact ⟨fun h => absurd h (by simp), Or.inr rfl⟩

/-- Closed instance of C1 at a failing commit. -/
theorem c1_witness :
    ingest_pdf (fun _ => .noKey) .fail 0 (fun t => [t])
        (.byteStream (some ["hello"])) none ⟨[]⟩ 50 = .error .persistenceFailed ∧
    storeAfter ⟨[]⟩ (ingest_pdf (fun _ => .noKey) .fail 0 (fun t => [t])
        (.byteStream (some ["hello"])) none ⟨[]⟩ 50) = ⟨[]⟩ :=
  (c1_persist_failure_rolls_back (fun _ => .noKey) .fail 0 (fun t => [t])
    (.byteStream (some ["hello"])) none ⟨[]⟩ 50
    ⟨"upload.pdf", "hello", ["hello"], 1⟩ rfl).1 rfl

/-- C5 counterexample: extraction succeeds (`process_pdf` returns a
processed document) but the chunker yields an empty chunk list, and
`ingest_pdf` — which has no empty-chunk guard — returns the success
summary with `total_chunks = 0` instead of failing. -/
theorem c5_counterexample :
    process_pdf (fun _ => []) (.byteStream (some ["hello"])) none
        = .ok ⟨"upload.pdf", "hello", [], 1⟩ ∧
    ingest_pdf (fun _ => .noKey) .ok 0 (fun _ => [])
        (.byteStream (some ["hello"])) none ⟨[]⟩ 50
      = .ok (⟨[]⟩, ⟨"upload.pdf", 1, 0, "success"⟩) :=
  ⟨rfl, rfl⟩

/-- C5 (amended): when extraction succeeds but chunking yields an empty
chunk list, `ingest_pdf` does **not** fail — with a successful commit it
returns the success summary with `total_chunks = 0` and leaves the Chunk
Store unchanged (zero records persisted); there is no second guard. -/
theorem c5_empty_chunks_success_zero (env : EmbedEnv) (idBase : Nat)
    (splitter : String → List String) (src : PdfSource) (arg : Option String)
    (db : ChunkStore) (bs : Nat) (processed : ProcessResult)
    (hok : process_pdf splitter src arg = .ok processed)
    (hchunks : processed.chunks = []) :
    ingest_pdf env .ok idBase splitter src arg db bs
      = .ok (db, ⟨processed.filename, processed.total_pages, 0, "success"⟩) := by
  unfold ingest_pdf
  rw [hok]
  show Except.ok (ChunkStore.mk (db.rows ++ mkRecords idBase processed.filename
        processed.total_pages processed.chunks (embedAllBatches env bs processed.chunks)),
      IngestSummary.mk processed.filename processed.total_pages
        processed.chunks.length "success")
    = Except.ok (db, IngestSummary.mk processed.filename processed.total_pages 0 "success")
  rw [hchunks, mkRecords, mkRecordsGo]
  simp

/-- Closed instance of C5's amended claim. -/
theorem c5_witness :
    ingest_pdf (fun _ => .noKey) .ok 7 (fun _ => [])
        (.byteStream (some ["hello"])) none ⟨[]⟩ 50
      = .ok (⟨[]⟩, ⟨"upload.pdf", 1, 0, "success"⟩) :=
  c5_empty_chunks_success_zero (fun _ => .noKey) 7 (fun _ => [])
    (.byteStream (some ["hello"])) none ⟨[]⟩ 50
    ⟨"upload.pdf", "hello", [], 1⟩ rfl rfl

/-- C7: a successful ingestion of chunks `c_0 … c_(n-1)` persists exactly
`n` records appended to the store, record `j` carrying
`sequence_index = j`, `content = c_j`, the source page count, the total
chunk count `n` and `c_j`'s character length in its metadata; the
returned summary is `{source_name, total_pages, total_chunks = n,
"success"}`.  The provider-contract hypothesis `hlen` (one vector per
input text) rules out the external provider answering with the wrong
number of embeddings. -/
theorem c7_persisted_records_exact (env : EmbedEnv) (idBase : Nat)
    (splitter : String → List String) (src : PdfSource) (arg : Option String)
    (db : ChunkStore) (bs : Nat) (processed : ProcessResult)
    (hlen : ∀ ts, (generate_embeddings env ts).length = ts.length)
    (hok : process_pdf splitter src arg = .ok processed) :
    ingest_pdf env .ok idBase splitter src arg db bs
      = .ok (⟨db.rows ++ mkRecords idBase processed.filename processed.total_pages
              processed.chunks (embedAllBatches env bs processed.chunks)⟩,
             ⟨processed.filename, processed.total_pages, processed.chunks.length,
              "success"⟩) ∧
    (mkRecords idBase processed.filename processed.total_pages processed.chunks
        (embedAllBatches env bs processed.chunks)).length = processed.chunks.length ∧
    ∀ j, j < processed.chunks.length →
      (mkRecords idBase processed.filename processed.total_pages processed.chunks
          (embedAllBatches env bs processed.chunks))[j]? =
        some ⟨idBase + j, processed.filename, j, processed.chunks.getD j "",
              some ((embedAllBatches env bs processed.chunks).getD j []),
              ⟨processed.total_pages, processed.chunks.length,
               (processed.chunks.getD j "").length⟩⟩ := by
  have hemb : (embedAllBatches env bs processed.chunks).length
      = processed.chunks.length := embedAllBatches_length env bs processed.chunks hlen
  refine ⟨?_, ?_, ?_⟩
  · unfold ingest_pdf
    rw [hok]
  · rw [mkRecords, mkRecordsGo_length, hemb, Nat.min_self]
  · intro j hj
    exact mkRecords_getElem? idBase processed.filename processed.total_pages
      processed.chunks (embedAllBatches env bs processed.chunks) j hj (hemb ▸ hj)

/-- Closed instance of C7. -/
theorem c7_witness :
    ingest_pdf (fun _ => .noKey) .ok 0 (fun t => [t])
        (.byteStream (some ["hello"])) none ⟨[]⟩ 50
      = .ok (⟨[] ++ mkRecords 0 "upload.pdf" 1 ["hello"]
              (embedAllBatches (fun _ => .noKey) 50 ["hello"])⟩,
             ⟨"upload.pdf", 1, 1, "success"⟩) ∧
    (mkRecords 0 "upload.pdf" 1 ["hello"]
        (embedAllBatches (fun _ => .noKey) 50 ["hello"])).length = 1 := by
  have h := c7_persisted_records_exact (fun _ => .noKey) 0 (fun t => [t])
    (.byteStream (some ["hello"])) none ⟨[]⟩ 50
    ⟨"upload.pdf", "hello", ["hello"], 1⟩
    (fun ts => List.length_map ts _) rfl
  exact ⟨h.1, h.2.1⟩

/-- C8 counterexample: ingesting the same byte-identical document twice
under the same (default) source name — as the append-only pipeline
permits — leaves the store with two distinct chunk rows that share both
`source_name` and `sequence_index` (both `("upload.pdf", 0)`), because
each call restarts `chunk_index` at `0`.  The pair therefore does not
uniquely identify a chunk across reachable states. -/
theorem c8_counterexample :
    ((storeAfter
        (storeAfter ⟨[]⟩ (ingest_pdf (fun _ => .noKey) .ok 0 (fun t => [t])
          (.byteStream (some ["hello"])) none ⟨[]⟩ 50))
        (ingest_pdf (fun _ => .noKey) .ok 100 (fun t => [t])
          (.byteStream (some ["hello"])) none
          (storeAfter ⟨[]⟩ (ingest_pdf (fun _ => .noKey) .ok 0 (fun t => [t])
            (.byteStream (some ["hello"])) none ⟨[]⟩ 50)) 50)).rows.map
      fun r => (r.filename, r.chunk_index))
      = [("upload.pdf", 0), ("upload.pdf", 0)] :=
  rfl

/-- C8 (amended): within a single ingestion call the persisted records do
have pairwise distinct `(source_name, sequence_index)` — record `j` gets
index `j` — but re-ingesting an existing `source_name` can duplicate the
pair, so uniqueness holds only per call, not across all reachable
states. -/
theorem c8_within_call_unique (idBase : Nat) (fname : String) (tp : Nat)
    (chunks : List String) (embs : List (List ℚ)) (i j : Nat)
    (hi : i < (mkRecords idBase fname tp chunks embs).length)
    (hj : j < (mkRecords idBase fname tp chunks embs).length)
    (hij : i ≠ j) :
    (mkRecords idBase fname tp chunks embs)[i].chunk_index ≠
      (mkRecords idBase fname tp chunks embs)[j].chunk_index := by
  have hlen : (mkRecords idBase fname tp chunks embs).length
      = min chunks.length embs.length := mkRecordsGo_length idBase fname tp _ chunks embs 0
  have hidx : ∀ k (hk : k < (mkRecords idBase fname tp chunks embs).length),
      (mkRecords idBase fname tp chunks embs)[k].chunk_index = k := by
    intro k hk
    have hk1 : k < chunks.length := by omega
    have hk2 : k < embs.length := by omega
    have h := mkRecords_getElem? idBase fname tp chunks embs k hk1 hk2
    rw [List.getElem?_eq_getElem hk] at h
    have h2 := Option.some.inj h
    exact congrArg DocumentChunk.chunk_index h2
  rw [hidx i hi, hidx j hj]
  exact hij

/-- Closed instance of C8's amended claim. -/
theorem c8_witness :
    ((mkRecords 0 "f.pdf" 1 ["a", "b"] [[], []]).get ⟨0, by decide⟩).chunk_index ≠
      ((mkRecords 0 "f.pdf" 1 ["a", "b"] [[], []]).get ⟨1, by decide⟩).chunk_index :=
  c8_within_call_unique 0 "f.pdf" 1 ["a", "b"] [[], []] 0 1
    (by decide) (by decide) (by decide)

/-! ## Retrieval service (`BrainService.semantic_search`)

The `<=>` operator that ranks rows is computed by the external pgvector
extension; it is modelled by an exact rational cosine distance, where the
square root of a rational is taken through `Nat.sqrt` on numerator and
denominator — exact on every input whose Euclidean norm is rational,
which covers every concrete instance below. -/

def dotQ : List ℚ → List ℚ → ℚ
  | [], _ => 0
  | a :: as, v =>
    match v with
    | [] => 0
    | b :: bs => a * b + dotQ as bs

def normSqQ (v : List ℚ) : ℚ := dotQ v v

/-- Largest `k ≤ n` with `k * k ≤ n`, by exhaustive scan (kept structural
so that concrete instances evaluate inside the kernel). -/
def isqrt (n : Nat) : Nat :=
  (List.range (n + 1)).foldl (fun acc k => if k * k ≤ n then k else acc) 0

/-- Exact square root for perfect-square nonnegative rationals. -/
def ratSqrt (q : ℚ) : ℚ := (isqrt q.num.toNat : ℚ) / (isqrt q.den : ℚ)

/-- Cosine distance `1 − u·v / (‖u‖ ‖v‖)` as computed by pgvector's
`<=>`. -/
def cosineDistance (u v : List ℚ) : ℚ :=
  1 - dotQ u v / (ratSqrt (normSqQ u) * ratSqrt (normSqQ v))

/-- Python's `round(x, 4)`: round to four decimal places, ties to even. -/
def roundHalfEven (q : ℚ) : ℤ :=
  if q - ⌊q⌋ < 1/2 then ⌊q⌋
  else if 1/2 < q - ⌊q⌋ then ⌊q⌋ + 1
  else if ⌊q⌋ % 2 = 0 then ⌊q⌋ else ⌊q⌋ + 1

def round4 (q : ℚ) : ℚ := (roundHalfEven (q * 10000) : ℚ) / 10000

theorem roundHalfEven_mono (x y : ℚ) (h : x ≤ y) :
    roundHalfEven x ≤ roundHalfEven y := by
  have hfm : (⌊x⌋ : ℤ) ≤ ⌊y⌋ := Int.floor_le_floor h
  rcases eq_or_lt_of_le hfm with hf | hf
  · unfold roundHalfEven
    rw [← hf]
    have hxy : x - (⌊x⌋ : ℚ) ≤ y - (⌊x⌋ : ℚ) := by linarith
    split_ifs <;> first | omega | (exfalso; linarith)
  · have h1 : roundHalfEven x ≤ ⌊x⌋ + 1 := by
      unfold roundHalfEven; split_ifs <;> omega
    have h2 : (⌊y⌋ : ℤ) ≤ roundHalfEven y := by
      unfold roundHalfEven; split_ifs <;> omega
    omega

theorem round4_mono (x y : ℚ) (h : x ≤ y) : round4 x ≤ round4 y := by
  rw [round4, round4]
  have hm : roundHalfEven (x * 10000) ≤ roundHalfEven (y * 10000) :=
    roundHalfEven_mono _ _ (mul_le_mul_of_nonneg_right h (by norm_num))
  have hc : ((roundHalfEven (x * 10000) : ℚ)) ≤ (roundHalfEven (y * 10000) : ℚ) := by
    exact_mod_cast hm
  exact (div_le_div_right (by norm_num)).mpr hc

/-- One row of the list of dicts returned by `semantic_search`
(lines 285-295). -/
structure SearchResult where
  id : Nat
  filename : String
  chunk_index : Nat
  content : String
  score : ℚ
  metadata : ChunkMetadata
deriving DecidableEq

/-- The optional filename filter (lines 280-281); Python's
`if filename_filter:` treats an empty string as no filter. -/
def matchesFilter (fil : Option String) (r : DocumentChunk) : Bool :=
  match fil with
  | none => true
  | some f => if f = "" then true else r.filename == f

/-- The rows the query ranges over: `filter(DocumentChunk.embedding.isnot(None))`
(line 277) composed with the optional filename filter. -/
def candidateRows (store : ChunkStore) (fil : Option String) : List DocumentChunk :=
  (store.rows.filter fun r => r.embedding.isSome).filter (matchesFilter fil)

/-- `(await cls.generate_embeddings([query]))[0]` (line 266).  The indexed
access is total in every provider outcome the code exercises (each path
returns one vector per input text); the default covers the off-contract
case of an empty successful response, where Python would raise. -/
def queryEmbedding (env : EmbedEnv) (query : String) : List ℚ :=
  (generate_embeddings env [query]).headD (List.replicate 1536 0)

/-- Ascending-distance comparator of the `ORDER BY distance` clause. -/
def leDist (a b : DocumentChunk × ℚ) : Prop := a.2 ≤ b.2

instance : DecidableRel leDist := fun a b => inferInstanceAs (Decidable (a.2 ≤ b.2))

instance : IsTotal (DocumentChunk × ℚ) leDist := ⟨fun a b => le_total a.2 b.2⟩

instance : IsTrans (DocumentChunk × ℚ) leDist := ⟨fun _ _ _ => le_trans⟩

/-- `BrainService.semantic_search` (lines 243-295): embed the query, rank
the candidate rows by ascending cosine distance (a stable sort, per the
spec's reading of the underlying query), truncate to `limit`, and return
result dicts with `score = round(1 - distance, 4)`. -/
def semantic_search (env : EmbedEnv) (query : String) (store : ChunkStore)
    (limit : Nat) (fil : Option String) : List SearchResult :=
  let qe := queryEmbedding env query
  let scored := (candidateRows store fil).map fun r =>
    (r, cosineDistance (r.embedding.getD []) qe)
  let ordered := List.insertionSort leDist scored
  (ordered.take limit).map fun p =>
    ⟨p.1.id, p.1.filename, p.1.chunk_index, p.1.content, round4 (1 - p.2),
     p.1.metadata_json⟩

/-- Every returned result arises from a stored row with a non-NULL
embedding, and carries that row's fields with the rounded complemented
distance as its score. -/
theorem semantic_search_mem (env : EmbedEnv) (query : String) (store : ChunkStore)
    (limit : Nat) (fil : Option String) (res : SearchResult)
    (h : res ∈ semantic_search env query store limit fil) :
    ∃ r ∈ store.rows, ∃ e, r.embedding = some e ∧
      res.id = r.id ∧ res.filename = r.filename ∧ res.chunk_index = r.chunk_index ∧
      res.content = r.content ∧ res.metadata = r.metadata_json ∧
      res.score = round4 (1 - cosineDistance e (queryEmbedding env query)) := by
  unfold semantic_search at h
  obtain ⟨p, hp, rfl⟩ := List.mem_map.mp h
  have hp2 : p ∈ List.insertionSort leDist
      ((candidateRows store fil).map fun r =>
        (r, cosineDistance (r.embedding.getD []) (queryEmbedding env query))) :=
    (List.take_sublist _ _).subset hp
  have hp3 := (List.mem_insertionSort leDist).mp hp2
  obtain ⟨r, hr, rfl⟩ := List.mem_map.mp hp3
  have hr2 : r ∈ store.rows.filter fun r => r.embedding.isSome :=
    List.mem_of_mem_filter hr
  have hrs : r ∈ store.rows := List.mem_of_mem_filter hr2
  have hsome : r.embedding.isSome = true := (List.mem_filter.mp hr2).2
  obtain ⟨e, he⟩ := Option.isSome_iff_exists.mp hsome
  refine ⟨r, hrs, e, he, rfl, rfl, rfl, rfl, rfl, ?_⟩
  rw [he]
  rfl

theorem normSqQ_nine_ones : normSqQ [1, 1, 1, 1, 1, 1, 1, 1, 1] = 9 := by
  simp [normSqQ, dotQ]; norm_num

theorem normSqQ_four_ones : normSqQ [(1 : ℚ), 1, 1, 1] = 4 := by
  simp [normSqQ, dotQ]; norm_num

theorem ratSqrt_nine : ratSqrt 9 = 3 := by
  rw [ratSqrt]
  norm_num [Rat.num_ofNat, Rat.den_ofNat]
  norm_num [show isqrt (Int.toNat 9) = 3 from rfl, show isqrt 1 = 1 from rfl]

theorem ratSqrt_four : ratSqrt 4 = 2 := by
  rw [ratSqrt]
  norm_num [Rat.num_ofNat, Rat.den_ofNat]
  norm_num [show isqrt (Int.toNat 4) = 2 from rfl, show isqrt 1 = 1 from rfl]

/-- The cosine distance between a nine-ones vector and a four-ones vector
is exactly `1 − 4/(3·2) = 1/3`. -/
theorem cosineDistance_nine_four :
    cosineDistance [1, 1, 1, 1, 1, 1, 1, 1, 1] [(1 : ℚ), 1, 1, 1] = 1/3 := by
  have hd : dotQ [(1 : ℚ), 1, 1, 1, 1, 1, 1, 1, 1] [1, 1, 1, 1] = 4 := by
    simp [dotQ]; norm_num
  rw [cosineDistance, normSqQ_nine_ones, normSqQ_four_ones, hd,
    ratSqrt_nine, ratSqrt_four]
  norm_num

/-- `round(2/3, 4)` is `0.6667`. -/
theorem round4_two_thirds : round4 (2/3) = 6667/10000 := by
  have h1 : (2/3 * 10000 : ℚ) = 20000/3 := by norm_num
  have hf : ⌊(20000/3 : ℚ)⌋ = 6666 := by
    rw [Int.floor_eq_iff] <;> norm_num
  rw [round4, h1, roundHalfEven, hf]
  norm_num

/-- C3 counterexample: a store holding one chunk whose stored vector has
nine unit coordinates, and a provider answering the query with a vector
of four unit coordinates (both of rational norm).  The cosine distance is
exactly 1/3, so `1 − distance = 2/3`, but the returned score is the
4-decimal rounding `0.6667 = 6667/10000 ≠ 2/3`: the score does not equal
1 minus the cosine distance. -/
theorem c3_counterexample :
    ((semantic_search (fun _ => .ok [(0, [1, 1, 1, 1])]) "q"
        ⟨[⟨1, "doc.pdf", 0, "c0", some [1, 1, 1, 1, 1, 1, 1, 1, 1], ⟨1, 1, 2⟩⟩]⟩
        3 none).map fun r => r.score) = [6667/10000] ∧
    (1 : ℚ) - cosineDistance [1, 1, 1, 1, 1, 1, 1, 1, 1]
        (queryEmbedding (fun _ => .ok [(0, [1, 1, 1, 1])]) "q") = 2/3 ∧
    (6667/10000 : ℚ) ≠ 2/3 := by
  have hq : queryEmbedding (fun _ => .ok [(0, ([1, 1, 1, 1] : List ℚ))]) "q"
      = [1, 1, 1, 1] := rfl
  have h23 : (1 : ℚ) - 1/3 = 2/3 := by norm_num
  refine ⟨?_, ?_, by norm_num⟩
  · have hstruct : ((semantic_search (fun _ => .ok [(0, [1, 1, 1, 1])]) "q"
        ⟨[⟨1, "doc.pdf", 0, "c0", some [1, 1, 1, 1, 1, 1, 1, 1, 1], ⟨1, 1, 2⟩⟩]⟩
        3 none).map fun r => r.score)
        = [round4 (1 - cosineDistance [1, 1, 1, 1, 1, 1, 1, 1, 1]
            (queryEmbedding (fun _ => .ok [(0, [1, 1, 1, 1])]) "q"))] := rfl
    rw [hstruct, hq, cosineDistance_nine_four, h23, round4_two_thirds]
  · rw [hq, cosineDistance_nine_four]
    norm_num

/-- C3 (amended): for every query, positive limit, optional filename
filter and store state, `semantic_search` returns at most `limit`
results, ordered by descending score, and each result's score equals
`1 − cosine_distance` **rounded half-to-even to 4 decimal places**
(`round(1 - distance, 4)`, line 291), not the exact value. -/
theorem c3_search_limit_order_rounded_score (env : EmbedEnv) (query : String)
    (store : ChunkStore) (limit : Nat) (fil : Option String) (hlim : 0 < limit) :
    (semantic_search env query store limit fil).length ≤ limit ∧
    (semantic_search env query store limit fil).Pairwise
      (fun a b => b.score ≤ a.score) ∧
    ∀ res ∈ semantic_search env query store limit fil,
      ∃ r ∈ store.rows, ∃ e, r.embedding = some e ∧ res.id = r.id ∧
        res.score = round4 (1 - cosineDistance e (queryEmbedding env query)) := by
  refine ⟨?_, ?_, ?_⟩
  · unfold semantic_search
    rw [List.length_map, List.length_take]
    omega
  · unfold semantic_search
    have hsorted : (List.insertionSort leDist
        ((candidateRows store fil).map fun r =>
          (r, cosineDistance (r.embedding.getD []) (queryEmbedding env query)))).Pairwise
        leDist :=
      List.sorted_insertionSort leDist _
    have htake := hsorted.sublist (List.take_sublist limit _)
    rw [List.pairwise_map]
    exact htake.imp fun hab => round4_mono _ _ (by unfold leDist at hab; linarith)
  · intro res hres
    obtain ⟨r, hr, e, he, hid, _, _, _, _, hscore⟩ :=
      semantic_search_mem env query store limit fil res hres
    exact ⟨r, hr, e, he, hid, hscore⟩

/-- Closed instance of C3's amended claim. -/
theorem c3_witness :
    (semantic_search (fun _ => .noKey) "q"
        ⟨[⟨1, "d.pdf", 0, "c", some [], ⟨1, 1, 1⟩⟩]⟩ 3 none).length ≤ 3 ∧
    ∃ r ∈ (⟨[⟨1, "d.pdf", 0, "c", some [], ⟨1, 1, 1⟩⟩]⟩ : ChunkStore).rows,
      ∃ e, r.embedding = some e ∧
        (⟨1, "d.pdf", 0, "c",
            round4 (1 - cosineDistance [] (queryEmbedding (fun _ => .noKey) "q")),
            ⟨1, 1, 1⟩⟩ : SearchResult).id = r.id ∧
        (⟨1, "d.pdf", 0, "c",
            round4 (1 - cosineDistance [] (queryEmbedding (fun _ => .noKey) "q")),
            ⟨1, 1, 1⟩⟩ : SearchResult).score
          = round4 (1 - cosineDistance e (queryEmbedding (fun _ => .noKey) "q")) := by
  have h := c3_search_limit_order_rounded_score (fun _ => .noKey) "q"
    ⟨[⟨1, "d.pdf", 0, "c", some [], ⟨1, 1, 1⟩⟩]⟩ 3 none (by decide)
  exact ⟨h.1, h.2.2 ⟨1, "d.pdf", 0, "c",
    round4 (1 - cosineDistance [] (queryEmbedding (fun _ => .noKey) "q")), ⟨1, 1, 1⟩⟩
    (List.mem_singleton.mpr rfl)⟩

/-- C10: `semantic_search` never returns a chunk whose stored embedding is
NULL — every returned result arises from a row whose `embedding` is
non-`none` — while any row with a present vector (in particular an
all-zero fallback vector) that passes the filename filter remains in the
candidate set the ranking ranges over. -/
theorem c10_null_embeddings_excluded (env : EmbedEnv) (query : String)
    (store : ChunkStore) (limit : Nat) (fil : Option String) :
    (∀ res ∈ semantic_search env query store limit fil,
      ∃ r ∈ store.rows, r.embedding ≠ none ∧ res.id = r.id ∧
        res.content = r.content) ∧
    (∀ r ∈ store.rows, r.embedding.isSome = true → matchesFilter fil r = true →
      r ∈ candidateRows store fil) := by
  constructor
  · intro res hres
    obtain ⟨r, hr, e, he, hid, _, _, hcontent, _, _⟩ :=
      semantic_search_mem env query store limit fil res hres
    exact ⟨r, hr, by rw [he]; exact Option.some_ne_none e, hid, hcontent⟩
  · intro r hr hsome hmatch
    exact List.mem_filter.mpr ⟨List.mem_filter.mpr ⟨hr, hsome⟩, hmatch⟩

/-- Closed instance of C10: a store with a NULL-embedding row and an
all-zero-vector row; the search result corresponds to a non-NULL row, and
the zero-vector row is a ranking candidate. -/
theorem c10_witness :
    (∃ r ∈ (⟨[⟨1, "a.pdf", 0, "x", none, ⟨1, 2, 1⟩⟩,
              ⟨2, "a.pdf", 1, "y", some [0, 0, 0], ⟨1, 2, 1⟩⟩]⟩ : ChunkStore).rows,
      r.embedding ≠ none ∧
      (⟨2, "a.pdf", 1, "y",
          round4 (1 - cosineDistance [0, 0, 0] (queryEmbedding (fun _ => .noKey) "q")),
          ⟨1, 2, 1⟩⟩ : SearchResult).id = r.id ∧
      (⟨2, "a.pdf", 1, "y",
          round4 (1 - cosineDistance [0, 0, 0] (queryEmbedding (fun _ => .noKey) "q")),
          ⟨1, 2, 1⟩⟩ : SearchResult).content = r.content) ∧
    (⟨2, "a.pdf", 1, "y", some [0, 0, 0], ⟨1, 2, 1⟩⟩ : DocumentChunk) ∈
      candidateRows ⟨[⟨1, "a.pdf", 0, "x", none, ⟨1, 2, 1⟩⟩,
                      ⟨2, "a.pdf", 1, "y", some [0, 0, 0], ⟨1, 2, 1⟩⟩]⟩ none := by
  have h := c10_null_embeddings_excluded (fun _ => .noKey) "q"
    ⟨[⟨1, "a.pdf", 0, "x", none, ⟨1, 2, 1⟩⟩,
      ⟨2, "a.pdf", 1, "y", some [0, 0, 0], ⟨1, 2, 1⟩⟩]⟩ 3 none
  refine ⟨h.1 ⟨2, "a.pdf", 1, "y",
      round4 (1 - cosineDistance [0, 0, 0] (queryEmbedding (fun _ => .noKey) "q")),
      ⟨1, 2, 1⟩⟩ (List.mem_singleton.mpr rfl), ?_⟩
  have hmem : (⟨2, "a.pdf", 1, "y", some [0, 0, 0], ⟨1, 2, 1⟩⟩ : DocumentChunk) ∈
      (⟨[⟨1, "a.pdf", 0, "x", none, ⟨1, 2, 1⟩⟩,
         ⟨2, "a.pdf", 1, "y", some [0, 0, 0], ⟨1, 2, 1⟩⟩]⟩ : ChunkStore).rows :=
    List.mem_cons_of_mem _ (List.mem_singleton.mpr rfl)
  exact h.2 ⟨2, "a.pdf", 1, "y", some [0, 0, 0], ⟨1, 2, 1⟩⟩ hmem rfl rfl

end VyronBrain
